import Mathlib

/-!
Verification of the parallel multi-model evaluation / judged ranking workflow
(`elchanio_wk1_lab2_llm_parallel_evaluation.py`) against its specification.

The Python program is shallowly embedded: dictionaries become insertion-ordered
association lists, network calls become an oracle `CallOutcome` valued function,
exceptions become `Option` results, and `float` averages become `ℚ`.  Every
definition mirrors the control flow of the source function it is named after.
-/

/-- `d[k]` for an insertion-ordered dictionary embedded as an association
list: the value at the first (hence, for `Nodup` keys, the only) binding. -/
def assocFind {α β : Type} [DecidableEq α] : List (α × β) → α → Option β
  | [], _ => none
  | kv :: rest, k => if kv.1 = k then some kv.2 else assocFind rest k

/-- `d[k] = v` on an insertion-ordered dictionary: an existing binding is
updated in place, a new key is appended at the end (Python dict semantics). -/
def dictSet {α β : Type} [DecidableEq α] : List (α × β) → α → β → List (α × β)
  | [], k, v => [(k, v)]
  | kv :: rest, k, v => if kv.1 = k then (k, v) :: rest else kv :: dictSet rest k v

/-- First defined option, used to express lookups layered over two sources. -/
def firstSome {β : Type} : Option β → Option β → Option β
  | some v, _ => some v
  | none, o => o

/-- The runtime class of a provider client, which `call_single_model`
dispatches on with `isinstance`: `OpenAI`, `Anthropic`, the Bedrock
`BaseClient`, or anything else (the `else: raise ValueError` branch). -/
inductive ClientKind where
  | openaiK
  | anthropicK
  | bedrockK
  | otherK
deriving DecidableEq

/-- Result of one provider API call for a fixed prompt: the returned text, or
the message of the exception the call raised. -/
inductive CallOutcome where
  | ok (text : String)
  | exn (msg : String)
deriving DecidableEq

/-- `call_single_model` (lines 160-186): dispatch on the client's class, catch
any exception (including the `ValueError` for an unknown client type) and turn
it into a `"Error: ..."` response; always returns the `(model, response)`
pair. `outcome` is the oracle for what the underlying API call does. -/
def call_single_model (kind : ClientKind) (outcome : CallOutcome) (model : String) :
    String × String :=
  match kind, outcome with
  | ClientKind.otherK, _ =>
      (model, "Error: ❌ Unknown client type for model " ++ model)
  | _, CallOutcome.ok t => (model, t)
  | _, CallOutcome.exn e => (model, "Error: " ++ e)

/-- The `(model, response)` results of the worker tasks submitted by
`call_models` (one per requested provider that is present in `clients`),
listed in submission order.  `behavior` is the oracle giving each provider
call's outcome for the round's fixed prompt. -/
def submittedResults (clients : List (String × ClientKind))
    (behavior : String → String → CallOutcome)
    (models : List (String × String)) : List (String × String) :=
  (models.filter (fun pm => (assocFind clients pm.1).isSome)).map
    (fun pm => call_single_model ((assocFind clients pm.1).getD ClientKind.otherK)
      (behavior pm.1 pm.2) pm.2)

/-- The `responses` dictionary as it stands after the submission loop of
`call_models` (lines 198-207): every requested provider missing from
`clients` contributes `responses[model] = "Error: No client available for
{provider}"`, in request order. -/
def missingResponses (clients : List (String × ClientKind))
    (models : List (String × String)) : List (String × String) :=
  models.foldl
    (fun d pm =>
      if (assocFind clients pm.1).isSome then d
      else dictSet d pm.2 ("Error: No client available for " ++ pm.1))
    []

/-- `call_models` (lines 189-221).  `models` is the requested
provider-to-model dictionary as an ordered list of entries; `order` is the
sequence of worker results as delivered by `as_completed` (a permutation of
`submittedResults` in any real execution).  An empty `models` makes
`ThreadPoolExecutor(max_workers=0)` raise `ValueError`, which line 219
re-raises: that is the `none` case.  Otherwise the fan-in loop re-keys every
delivered `(model, response)` pair into `responses`. -/
def call_models (clients : List (String × ClientKind))
    (behavior : String → String → CallOutcome)
    (models : List (String × String)) (order : List (String × String)) :
    Option (List (String × String)) :=
  if models.isEmpty then none
  else some (order.foldl (fun d r => dictSet d r.1 r.2)
    (missingResponses clients models))

/-- A decimal digit character. -/
def isDigitCh (c : Char) : Bool := 48 ≤ c.toNat && c.toNat ≤ 57

/-- Numeric value of a decimal digit character. -/
def charVal (c : Char) : ℕ := c.toNat - 48

/-- Numeric value of a hexadecimal digit character, if it is one. -/
def hexVal (c : Char) : Option ℕ :=
  if 48 ≤ c.toNat && c.toNat ≤ 57 then some (c.toNat - 48)
  else if 97 ≤ c.toNat && c.toNat ≤ 102 then some (c.toNat - 87)
  else if 65 ≤ c.toNat && c.toNat ≤ 70 then some (c.toNat - 55)
  else none

/-- JSON values as produced by `json.loads`; numbers keep their source
lexeme (no claim compares numeric magnitudes), object fields keep their
textual order. -/
inductive JsonVal where
  | null
  | bool (b : Bool)
  | num (lexeme : List Char)
  | str (s : List Char)
  | arr (elems : List JsonVal)
  | obj (fields : List (List Char × JsonVal))

/-- JSON insignificant whitespace. -/
def skipWs : List Char → List Char
  | [] => []
  | c :: cs => if c = ' ' ∨ c = '\t' ∨ c = '\n' ∨ c = '\r' then skipWs cs else c :: cs

/-- The single-character JSON string escapes. -/
def escChar (e : Char) : Option Char :=
  if e = '"' then some '"'
  else if e = '\\' then some '\\'
  else if e = '/' then some '/'
  else if e = 'b' then some (Char.ofNat 8)
  else if e = 'f' then some (Char.ofNat 12)
  else if e = 'n' then some '\n'
  else if e = 'r' then some '\r'
  else if e = 't' then some '\t'
  else none

/-- Body of a JSON string (after the opening quote): decoded content and the
remaining input after the closing quote.  Strict-mode `json.loads`: raw
control characters and unknown escapes are errors.  (Surrogate-pair joining
of `\uXXXX` escapes is not reproduced; no claim input uses them.) -/
def parseStringBody : List Char → Option (List Char × List Char)
  | [] => none
  | '"' :: rest => some ([], rest)
  | '\\' :: 'u' :: a :: b :: c :: d :: rest =>
    (match hexVal a, hexVal b, hexVal c, hexVal d with
     | some ha, some hb, some hc, some hd =>
       (parseStringBody rest).map
         (fun p => (Char.ofNat (((ha * 16 + hb) * 16 + hc) * 16 + hd) :: p.1, p.2))
     | _, _, _, _ => none)
  | '\\' :: e :: rest =>
    (match escChar e with
     | some ch => (parseStringBody rest).map (fun p => (ch :: p.1, p.2))
     | none => none)
  | c :: rest =>
    if c.toNat < 32 then none
    else (parseStringBody rest).map (fun p => (c :: p.1, p.2))

/-- Exponent part of a JSON number literal, or nothing (leaving `orig`). -/
def expTail (e : Char) (r orig : List Char) : List Char × List Char :=
  match r with
  | '+' :: r2 =>
    if r2.takeWhile isDigitCh = [] then ([], orig)
    else (e :: '+' :: r2.takeWhile isDigitCh, r2.dropWhile isDigitCh)
  | '-' :: r2 =>
    if r2.takeWhile isDigitCh = [] then ([], orig)
    else (e :: '-' :: r2.takeWhile isDigitCh, r2.dropWhile isDigitCh)
  | _ =>
    if r.takeWhile isDigitCh = [] then ([], orig)
    else (e :: r.takeWhile isDigitCh, r.dropWhile isDigitCh)

/-- A JSON number literal: optional sign, integer part without leading
zeros, optional fraction and exponent; returns the lexeme and the rest. -/
def parseNumber (l : List Char) : Option (List Char × List Char) :=
  let sp : List Char × List Char :=
    match l with
    | '-' :: rest => (['-'], rest)
    | _ => ([], l)
  let ds := sp.2.takeWhile isDigitCh
  let l2 := sp.2.dropWhile isDigitCh
  if ds = [] then none
  else if 2 ≤ ds.length ∧ ds.take 1 = ['0'] then none
  else
    let fp : List Char × List Char :=
      match l2 with
      | '.' :: r =>
        if r.takeWhile isDigitCh = [] then ([], l2)
        else ('.' :: r.takeWhile isDigitCh, r.dropWhile isDigitCh)
      | _ => ([], l2)
    let ep : List Char × List Char :=
      match fp.2 with
      | 'e' :: r => expTail 'e' r fp.2
      | 'E' :: r => expTail 'E' r fp.2
      | _ => ([], fp.2)
    some (sp.1 ++ ds ++ fp.1 ++ ep.1, ep.2)

/-- A partially built container during JSON parsing. -/
inductive PFrame where
  | arrF (done : List JsonVal)
  | objF (done : List (List Char × JsonVal)) (key : List Char)

/-- Parser state: about to read a value, or just finished one. -/
inductive PMode where
  | value
  | closed (v : JsonVal)

/-- Recursive-descent JSON reader with an explicit container stack; the fuel
only bounds the recursion and `length + 1` is always enough, since every
step consumes at least one input character. -/
def runParse : ℕ → PMode → List Char → List PFrame → Option (JsonVal × List Char)
  | 0, _, _, _ => none
  | fuel + 1, PMode.value, l, stack =>
    (match skipWs l with
     | 'n' :: 'u' :: 'l' :: 'l' :: rest => runParse fuel (PMode.closed JsonVal.null) rest stack
     | 't' :: 'r' :: 'u' :: 'e' :: rest =>
       runParse fuel (PMode.closed (JsonVal.bool true)) rest stack
     | 'f' :: 'a' :: 'l' :: 's' :: 'e' :: rest =>
       runParse fuel (PMode.closed (JsonVal.bool false)) rest stack
     | '"' :: rest =>
       (match parseStringBody rest with
        | some (s, rest2) => runParse fuel (PMode.closed (JsonVal.str s)) rest2 stack
        | none => none)
     | '[' :: rest =>
       (match skipWs rest with
        | ']' :: rest2 => runParse fuel (PMode.closed (JsonVal.arr [])) rest2 stack
        | _ => runParse fuel PMode.value rest (PFrame.arrF [] :: stack))
     | '\x7b' :: rest =>
       (match skipWs rest with
        | '\x7d' :: rest2 => runParse fuel (PMode.closed (JsonVal.obj [])) rest2 stack
        | '"' :: rest2 =>
          (match parseStringBody rest2 with
           | some (k, rest3) =>
             (match skipWs rest3 with
              | ':' :: rest4 => runParse fuel PMode.value rest4 (PFrame.objF [] k :: stack)
              | _ => none)
           | none => none)
        | _ => none)
     | c :: rest =>
       if c = '-' ∨ isDigitCh c then
         match parseNumber (c :: rest) with
         | some (lex, rest2) => runParse fuel (PMode.closed (JsonVal.num lex)) rest2 stack
         | none => none
       else none
     | [] => none)
  | fuel + 1, PMode.closed v, l, stack =>
    (match stack with
     | [] => some (v, l)
     | PFrame.arrF done :: stack2 =>
       (match skipWs l with
        | ',' :: rest => runParse fuel PMode.value rest (PFrame.arrF (done ++ [v]) :: stack2)
        | ']' :: rest =>
          runParse fuel (PMode.closed (JsonVal.arr (done ++ [v]))) rest stack2
        | _ => none)
     | PFrame.objF done key :: stack2 =>
       (match skipWs l with
        | ',' :: rest =>
          (match skipWs rest with
           | '"' :: rest2 =>
             (match parseStringBody rest2 with
              | some (k2, rest3) =>
                (match skipWs rest3 with
                 | ':' :: rest4 =>
                   runParse fuel PMode.value rest4
                     (PFrame.objF (done ++ [(key, v)]) k2 :: stack2)
                 | _ => none)
              | none => none)
           | _ => none)
        | '\x7d' :: rest =>
          runParse fuel (PMode.closed (JsonVal.obj (done ++ [(key, v)]))) rest stack2
        | _ => none))

/-- `json.loads`: parse one JSON value and require only whitespace after it. -/
def jsonParse (l : List Char) : Option JsonVal :=
  match runParse (l.length + 1) PMode.value l [] with
  | some (v, rest) => if skipWs rest = [] then some v else none
  | none => none

/-- Does `l` begin with `needle`? -/
def startsWithL : List Char → List Char → Bool
  | _, [] => true
  | [], _ :: _ => false
  | c :: cs, p :: ps => c == p && startsWithL cs ps

/-- `str.find(needle)` of Python: index of the first occurrence, if any. -/
def findSub (needle : List Char) : List Char → Option ℕ
  | [] => if startsWithL [] needle then some 0 else none
  | c :: cs =>
    if startsWithL (c :: cs) needle then some 0
    else (findSub needle cs).map (· + 1)

/-- `needle` occurs in `text` at position `i`. -/
def occursAt (needle text : List Char) (i : ℕ) : Bool :=
  (text.drop i).take needle.length == needle

/-- The literal `{"results"` that anchors the regex of
`extract_json_response` (line 226). -/
def RESLIT : List Char := "\x7b\"results\"".toList

/-- The literal `{"response"` that anchors `extract_complete_json`
(line 241). -/
def RESPLIT : List Char := "\x7b\"response\"".toList

/-- `re.search(r'(\x7b"results".*?\x7d)', text, re.DOTALL)` of line 227: the
match, if any, starts at the first occurrence of the literal `{"results"`
and, `.*?` being non-greedy, extends to the first `}` after that literal. -/
def matchResultsSpan (text : List Char) : Option (List Char) :=
  match findSub RESLIT text with
  | none => none
  | some i =>
    match findSub ['\x7d'] ((text.drop i).drop RESLIT.length) with
    | none => none
    | some k => some ((text.drop i).take (RESLIT.length + k + 1))

/-- The brace-balancing loop of `extract_complete_json` (lines 245-257):
walk the suffix that starts at the `{"response"` marker, counting `{` up and
`}` down; at each `}` that returns the count to zero, try to parse the
substring up to and including it, and keep scanning on parse failure. -/
def scanBraces (base : List Char) : List Char → ℕ → ℤ → Option JsonVal
  | [], _, _ => none
  | c :: rest, pos, count =>
    let count2 : ℤ :=
      if c = '\x7b' then count + 1 else if c = '\x7d' then count - 1 else count
    if c = '\x7d' ∧ count2 = 0 then
      match jsonParse (base.take (pos + 1)) with
      | some v => some v
      | none => scanBraces base rest (pos + 1) count2
    else scanBraces base rest (pos + 1) count2

/-- `extract_complete_json` (lines 239-257): nothing unless the text
contains the literal `{"response"`; otherwise brace-scan from its first
occurrence. -/
def extract_complete_json (text : List Char) : Option JsonVal :=
  match findSub RESPLIT text with
  | none => none
  | some i => scanBraces (text.drop i) (text.drop i) 0 0

/-- `extract_json_response` (lines 224-237): regex-match a `{"results"`
span and parse it; on a `json.JSONDecodeError` of that span fall back to
`extract_complete_json`; with no regex match at all, return `None`
directly. -/
def extract_json_response (text : List Char) : Option JsonVal :=
  match matchResultsSpan text with
  | none => none
  | some span =>
    match jsonParse span with
    | some v => some v
    | none => extract_complete_json text

/-- Lookup among parsed object fields; with duplicate keys `json.loads`
keeps the last value, hence the reversed search. -/
def objFieldLast : List (List Char × JsonVal) → List Char → Option JsonVal
  | [], _ => none
  | kv :: rest, k =>
    match objFieldLast rest k with
    | some v => some v
    | none => if kv.1 = k then some kv.2 else none

/-- `parsed[key]` on a parsed JSON value (a `dict` index). -/
def objLookup (v : JsonVal) (k : List Char) : Option JsonVal :=
  match v with
  | JsonVal.obj kvs => objFieldLast kvs k
  | _ => none

/-- One iteration of the step-5 loop of `main` (lines 402-414): the ranking
appended for one judge's evaluation text.  `extract_json_response` returning
`None` makes `parsed["results"]` raise `TypeError`, and a parsed object
without a `"results"` key raises `KeyError`; both are caught and append the
empty list.  Otherwise `parsed["results"]` is appended as-is. -/
def step5Ranking (t : List Char) : JsonVal :=
  match extract_json_response t with
  | none => JsonVal.arr []
  | some v =>
    match objLookup v ("results".toList) with
    | none => JsonVal.arr []
    | some r => r

/-- Python iteration of a parsed JSON value, as `enumerate(judge_ranking, 1)`
performs it: lists yield their elements, strings their characters, dicts
their keys; other values raise `TypeError` (`none`). -/
def pyIter : JsonVal → Option (List JsonVal)
  | JsonVal.arr xs => some xs
  | JsonVal.str s => some (s.map (fun c => JsonVal.str [c]))
  | JsonVal.obj kvs => some (kvs.map (fun kv => JsonVal.str kv.1))
  | _ => none

/-- Which provider credentials `setup_environment` found in the process
environment (`AWS_BEARER_TOKEN_BEDROCK`, `ANTHROPIC_API_KEY`,
`OPENAI_API_KEY`, `GEMINI_API_KEY`, `XAI_API_KEY`). -/
structure EnvKeys where
  bedrock : Bool
  anthropic : Bool
  openai : Bool
  google : Bool
  xai : Bool

/-- `setup_environment` (lines 28-108): each credentialed provider is added
to the `clients` dictionary only when its key is present and its client
constructor does not raise (`ctorOk`); the Ollama client (lines 100-106) is
constructed unconditionally, guarded only by its own constructor try/except.
The Google, xAI and Ollama clients are `OpenAI` instances. -/
def setup_environment (env : EnvKeys) (ctorOk : String → Bool) :
    List (String × ClientKind) :=
  (if env.bedrock && ctorOk "bedrock" then [("bedrock", ClientKind.bedrockK)] else []) ++
  (if env.anthropic && ctorOk "anthropic" then [("anthropic", ClientKind.anthropicK)] else []) ++
  (if env.openai && ctorOk "openai" then [("openai", ClientKind.openaiK)] else []) ++
  (if env.google && ctorOk "google" then [("google", ClientKind.openaiK)] else []) ++
  (if env.xai && ctorOk "xai" then [("xai", ClientKind.openaiK)] else []) ++
  (if ctorOk "ollama" then [("ollama", ClientKind.openaiK)] else [])

/-- The fatal guard `if not clients:` in `main` (lines 269-271). -/
def noClientsFatal (clients : List (String × ClientKind)) : Bool :=
  clients.isEmpty

/-- The 1-based positions at which competitor `c` appears in one judge's
ranking: `enumerate(judge_ranking, 1)` filtered to `c`. -/
def rankingPositions {α : Type} [DecidableEq α] (r : List α) (c : α) : List ℕ :=
  (r.enum.filter (fun p => decide (p.2 = c))).map (fun p => p.1 + 1)

/-- All positions accumulated for competitor `c` across the judges, in the
order the nested loop of lines 421-423 appends them. -/
def positionsOf {α : Type} [DecidableEq α] (rankings : List (List α)) (c : α) : List ℕ :=
  (rankings.map (fun r => rankingPositions r c)).flatten

/-- `defaultdict` key creation: a key is appended on first use. -/
def insertKey {α : Type} [DecidableEq α] (ks : List α) (c : α) : List α :=
  if c ∈ ks then ks else ks ++ [c]

/-- The keys of a `defaultdict` populated by a traversal of `l`: each
element in first-appearance order. -/
def firstKeys {α : Type} [DecidableEq α] (l : List α) : List α :=
  l.foldl insertKey []

/-- The `contestant_rankings` defaultdict of lines 420-423: each contestant
mentioned by some judge, in first-appearance order, with its accumulated
1-based positions. -/
def contestant_rankings {α : Type} [DecidableEq α] (rankings : List (List α)) :
    List (α × List ℕ) :=
  (firstKeys rankings.flatten).map (fun c => (c, positionsOf rankings c))

/-- The `average_rankings` dict comprehension of lines 426-427:
`sum(ranks)/len(ranks)` per contestant, skipping empty position lists
(`if ranks`); Python's float average is embedded as `ℚ`. -/
def average_rankings {α : Type} [DecidableEq α] (rankings : List (List α)) :
    List (α × ℚ) :=
  (contestant_rankings rankings).filterMap
    (fun cr => if cr.2.isEmpty then none
               else some (cr.1, (cr.2.sum : ℚ) / (cr.2.length : ℚ)))

/-- Insert into a list sorted ascending on the score, after all strictly
smaller scores and before all equal ones. -/
def insertSorted {α : Type} (x : α × ℚ) : List (α × ℚ) → List (α × ℚ)
  | [] => [x]
  | y :: ys => if y.2 < x.2 then y :: insertSorted x ys else x :: y :: ys

/-- `sorted(average_rankings.items(), key=lambda x: x[1])` of line 436:
Python's `sorted` is stable and ascending, which this insertion sort
reproduces observably. -/
def sorted_results {α : Type} [DecidableEq α] (rankings : List (List α)) :
    List (α × ℚ) :=
  (average_rankings rankings).foldr insertSorted []

/-- Decimal digit characters. -/
def digitChar : ℕ → Char
  | 0 => '0'
  | 1 => '1'
  | 2 => '2'
  | 3 => '3'
  | 4 => '4'
  | 5 => '5'
  | 6 => '6'
  | 7 => '7'
  | 8 => '8'
  | 9 => '9'
  | _ => '!'

/-- Little-endian decimal digits of `n` (empty for zero); the fuel only
bounds the recursion and any `fuel ≥ n` is enough. -/
def natDigitsRev : ℕ → ℕ → List ℕ
  | 0, _ => []
  | _ + 1, 0 => []
  | fuel + 1, n + 1 => (n + 1) % 10 :: natDigitsRev fuel ((n + 1) / 10)

/-- The decimal rendering of a natural number, as Python's f-string
interpolation `f"C\x7bindex+1\x7d"` produces it. -/
def natRepr (n : ℕ) : List Char :=
  if n = 0 then ['0'] else ((natDigitsRev n n).reverse.map digitChar)

/-- The anonymized competitor id `f"C\x7bi\x7d"`. -/
def competitorLabel (i : ℕ) : List Char :=
  'C' :: natRepr i

/-- `competitor.lower()`. -/
def lowerL (l : List Char) : List Char := l.map Char.toLower

/-- Python `str.strip(ch)`: remove every leading and trailing `ch`. -/
def stripChar (ch : Char) (l : List Char) : List Char :=
  ((l.dropWhile (fun c => c == ch)).reverse.dropWhile (fun c => c == ch)).reverse

/-- `int(s)` restricted to plain digit strings; anything else raises
`ValueError` (`none`).  (Python's `int` also tolerates surrounding
whitespace and a sign, which no competitor id exercises.) -/
def pyIntOf (l : List Char) : Option ℕ :=
  if l = [] then none
  else if l.all isDigitCh then some (l.foldl (fun a c => 10 * a + charVal c) 0)
  else none

/-- Python list indexing, with negative indices counting from the end and
`IndexError` as `none`. -/
def pyIndex (l : List String) (i : ℤ) : Option String :=
  if 0 ≤ i then l[i.toNat]?
  else if (-i).toNat ≤ l.length then l[l.length - (-i).toNat]?
  else none

/-- `competitors[int(competitor.lower().strip('c'))-1]` of line 443: the
model name displayed for a competitor id in the final ranking, with
`ValueError`/`IndexError` caught (`none`). -/
def competitorName (competitors : List String) (cid : List Char) : Option String :=
  match pyIntOf (stripChar 'c' (lowerL cid)) with
  | none => none
  | some k => pyIndex competitors ((k : ℤ) - 1)

/-- `competitors = [model for model in answers.keys()]` (line 339): the
fixed snapshot of the answer `ResponseSet`'s keys. -/
def competitorsOf (answers : List (String × String)) : List String :=
  answers.map Prod.fst

/-- `answers_list = [answer for answer in answers.values()]` (line 338). -/
def answersListOf (answers : List (String × String)) : List String :=
  answers.map Prod.snd

/-- The labelled sections of the `together` prompt (lines 344-347): the
competitor id `C\x7bindex+1\x7d` paired with the answer it anonymizes. -/
def together_sections (answers : List (String × String)) :
    List (List Char × String) :=
  (answersListOf answers).enum.map (fun p => (competitorLabel (p.1 + 1), p.2))

/-- The per-model error entries a dispatch round records for requested
providers that are missing from the registry, as a plain list. -/
def missingPairs (clients : List (String × ClientKind))
    (models : List (String × String)) : List (String × String) :=
  (models.filter (fun pm => !(assocFind clients pm.1).isSome)).map
    (fun pm => (pm.2, "Error: No client available for " ++ pm.1))

/-- The three judge rankings of the spec's aggregation example: C1 is placed
1st, 2nd, 1st; C2 is placed 2nd, 1st, 3rd; C3 is placed 3rd, 3rd, 2nd. -/
def exampleRankings : List (List String) :=
  [["C1", "C2", "C3"], ["C2", "C1", "C3"], ["C1", "C3", "C2"]]

section DictLemmas

variable {α β : Type} [DecidableEq α]

theorem assocFind_dictSet (d : List (α × β)) (k k' : α) (v : β) :
    assocFind (dictSet d k v) k' = if k = k' then some v else assocFind d k' := by
  induction d with
  | nil =>
    by_cases h : k = k' <;> simp [dictSet, assocFind, h]
  | cons kv rest ih =>
    obtain ⟨a, b⟩ := kv
    by_cases hk : a = k
    · subst hk
      by_cases h : a = k' <;> simp [dictSet, assocFind, h]
    · by_cases h : k = k'
      · subst h
        simp [dictSet, assocFind, hk, ih]
      · have h' : ¬ k' = k := fun he => h he.symm
        by_cases h2 : a = k' <;> simp [dictSet, assocFind, hk, h, h', h2, ih]

theorem assocFind_eq_none_iff (d : List (α × β)) (k : α) :
    assocFind d k = none ↔ k ∉ d.map Prod.fst := by
  induction d with
  | nil => simp [assocFind]
  | cons kv rest ih =>
    obtain ⟨a, b⟩ := kv
    by_cases h : a = k
    · subst h
      simp [assocFind]
    · simp only [assocFind, h, if_false, List.map_cons, List.mem_cons, ih]
      constructor
      · intro hr hor
        rcases hor with he | hm
        · exact h he.symm
        · exact hr hm
      · intro hr hm
        exact hr (Or.inr hm)

theorem assocFind_append (l1 l2 : List (α × β)) (k : α) :
    assocFind (l1 ++ l2) k = firstSome (assocFind l1 k) (assocFind l2 k) := by
  induction l1 with
  | nil => simp [assocFind, firstSome]
  | cons kv rest ih =>
    by_cases h : kv.1 = k <;> simp [assocFind, h, ih, firstSome]

theorem firstSome_assoc (a b c : Option β) :
    firstSome (firstSome a b) c = firstSome a (firstSome b c) := by
  cases a <;> cases b <;> simp [firstSome]

theorem dictSet_of_not_mem (d : List (α × β)) (k : α) (v : β)
    (h : k ∉ d.map Prod.fst) :
    dictSet d k v = d ++ [(k, v)] := by
  induction d with
  | nil => simp [dictSet]
  | cons kv rest ih =>
    obtain ⟨a, b⟩ := kv
    simp only [List.map_cons, List.mem_cons, not_or] at h
    have ha : ¬ a = k := fun he => h.1 he.symm
    simp [dictSet, ha, ih h.2]

theorem assocFind_foldl_dictSet (l : List (α × β)) (d : List (α × β)) (k : α) :
    assocFind (l.foldl (fun d r => dictSet d r.1 r.2) d) k =
      firstSome (assocFind l.reverse k) (assocFind d k) := by
  induction l generalizing d with
  | nil => simp [assocFind, firstSome]
  | cons x xs ih =>
    have hx : assocFind (x :: xs).reverse k =
        firstSome (assocFind xs.reverse k) (assocFind [x] k) := by
      simpa using assocFind_append xs.reverse [x] k
    rw [List.foldl_cons, ih, hx, firstSome_assoc]
    congr 1
    rw [assocFind_dictSet]
    by_cases h : x.1 = k <;> simp [assocFind, h, firstSome]

theorem mem_of_assocFind_eq_some (d : List (α × β)) (k : α) (v : β)
    (h : assocFind d k = some v) : (k, v) ∈ d := by
  induction d with
  | nil => simp [assocFind] at h
  | cons kv rest ih =>
    obtain ⟨a, b⟩ := kv
    by_cases hk : a = k
    · subst hk
      simp only [assocFind, eq_self_iff_true, if_true, Option.some.injEq] at h
      rw [h]
      exact List.mem_cons_self _ _
    · simp only [assocFind, hk, if_false] at h
      exact List.mem_cons_of_mem _ (ih h)

theorem assocFind_eq_some_of_mem (d : List (α × β))
    (hn : (d.map Prod.fst).Nodup) (k : α) (v : β) (h : (k, v) ∈ d) :
    assocFind d k = some v := by
  induction d with
  | nil => simp at h
  | cons kv rest ih =>
    obtain ⟨a, b⟩ := kv
    simp only [List.map_cons, List.nodup_cons] at hn
    rcases List.mem_cons.mp h with h1 | h1
    · injection h1 with he1 he2
      simp [assocFind, ← he1, he2]
    · have hak : ¬ a = k := by
        intro he
        subst he
        exact hn.1 (List.mem_map.mpr ⟨(a, v), h1, rfl⟩)
      simp [assocFind, hak, ih hn.2 h1]

theorem assocFind_perm (l1 l2 : List (α × β)) (hp : l1.Perm l2)
    (hn : (l1.map Prod.fst).Nodup) (k : α) :
    assocFind l1 k = assocFind l2 k := by
  have hn2 : (l2.map Prod.fst).Nodup := ((hp.map Prod.fst).nodup_iff).mp hn
  cases h1 : assocFind l1 k with
  | some v =>
    exact (assocFind_eq_some_of_mem l2 hn2 k v
      (hp.mem_iff.mp (mem_of_assocFind_eq_some _ _ _ h1))).symm
  | none =>
    cases h2 : assocFind l2 k with
    | none => rfl
    | some v =>
      have hm := mem_of_assocFind_eq_some _ _ _ h2
      have h3 := assocFind_eq_some_of_mem l1 hn k v (hp.mem_iff.mpr hm)
      rw [h1] at h3
      exact absurd h3 (by simp)

theorem keys_foldl_dictSet_fresh (l : List (α × β)) (d : List (α × β))
    (hn : (l.map Prod.fst).Nodup)
    (hdisj : ∀ k ∈ l.map Prod.fst, k ∉ d.map Prod.fst) :
    (l.foldl (fun d r => dictSet d r.1 r.2) d).map Prod.fst =
      d.map Prod.fst ++ l.map Prod.fst := by
  induction l generalizing d with
  | nil => simp
  | cons x xs ih =>
    have hx : x.1 ∉ d.map Prod.fst := hdisj x.1 (by simp)
    have hset : dictSet d x.1 x.2 = d ++ [(x.1, x.2)] :=
      dictSet_of_not_mem d x.1 x.2 hx
    simp only [List.map_cons, List.nodup_cons] at hn
    have hdisj2 : ∀ k ∈ xs.map Prod.fst, k ∉ (dictSet d x.1 x.2).map Prod.fst := by
      intro k hk
      rw [hset]
      simp only [List.map_append, List.mem_append, List.map_cons, List.map_nil,
        List.mem_singleton, not_or]
      refine ⟨hdisj k (by simp [hk]), ?_⟩
      intro he
      exact hn.1 (he ▸ hk)
    rw [List.foldl_cons, ih (dictSet d x.1 x.2) hn.2 hdisj2, hset]
    simp

end DictLemmas

theorem call_single_model_fst (k : ClientKind) (o : CallOutcome) (m : String) :
    (call_single_model k o m).1 = m := by
  cases k <;> cases o <;> rfl

theorem call_single_model_snd_ok (k : ClientKind) (hk : k ≠ ClientKind.otherK)
    (t m : String) : (call_single_model k (CallOutcome.ok t) m).2 = t := by
  cases k <;> first | rfl | exact absurd rfl hk

theorem call_single_model_snd_exn (k : ClientKind) (hk : k ≠ ClientKind.otherK)
    (e m : String) : (call_single_model k (CallOutcome.exn e) m).2 = "Error: " ++ e := by
  cases k <;> first | rfl | exact absurd rfl hk

theorem submittedResults_keys (clients : List (String × ClientKind))
    (behavior : String → String → CallOutcome) (models : List (String × String)) :
    (submittedResults clients behavior models).map Prod.fst =
      (models.filter (fun pm => (assocFind clients pm.1).isSome)).map Prod.snd := by
  unfold submittedResults
  rw [List.map_map]
  exact List.map_congr_left (fun pm _ => call_single_model_fst _ _ _)

theorem missingPairs_keys (clients : List (String × ClientKind))
    (models : List (String × String)) :
    (missingPairs clients models).map Prod.fst =
      (models.filter (fun pm => !(assocFind clients pm.1).isSome)).map Prod.snd := by
  unfold missingPairs
  rw [List.map_map]
  rfl

theorem submitted_missing_facts (clients : List (String × ClientKind))
    (behavior : String → String → CallOutcome) (models : List (String × String))
    (hnodup : (models.map Prod.snd).Nodup) :
    ((submittedResults clients behavior models).map Prod.fst).Nodup ∧
    ((missingPairs clients models).map Prod.fst).Nodup ∧
    ((submittedResults clients behavior models).map Prod.fst).Disjoint
      ((missingPairs clients models).map Prod.fst) := by
  rw [submittedResults_keys, missingPairs_keys]
  have hperm :=
    (List.filter_append_perm (fun pm => (assocFind clients pm.1).isSome) models).map Prod.snd
  rw [List.map_append] at hperm
  have hnd := (hperm.nodup_iff).mpr hnodup
  rw [List.nodup_append] at hnd
  exact hnd

theorem missingResponses_eq_aux (clients : List (String × ClientKind)) :
    ∀ (ms : List (String × String)) (d : List (String × String)),
      (ms.map Prod.snd).Nodup →
      (∀ pm ∈ ms, (assocFind clients pm.1).isSome = false → pm.2 ∉ d.map Prod.fst) →
      ms.foldl (fun d pm =>
          if (assocFind clients pm.1).isSome then d
          else dictSet d pm.2 ("Error: No client available for " ++ pm.1)) d
        = d ++ missingPairs clients ms := by
  intro ms
  induction ms with
  | nil =>
    intro d _ _
    simp [missingPairs]
  | cons pm rest ih =>
    intro d hn hfresh
    simp only [List.map_cons, List.nodup_cons] at hn
    by_cases hp : (assocFind clients pm.1).isSome = true
    · rw [List.foldl_cons, if_pos hp]
      have hmp : missingPairs clients (pm :: rest) = missingPairs clients rest := by
        unfold missingPairs
        rw [List.filter_cons]
        simp [hp]
      rw [hmp]
      exact ih d hn.2 (fun pm' h1 h2 => hfresh pm' (List.mem_cons_of_mem _ h1) h2)
    · have hp' : (assocFind clients pm.1).isSome = false := by
        simpa using hp
      rw [List.foldl_cons, if_neg (by simp [hp'])]
      have hfr : pm.2 ∉ d.map Prod.fst := hfresh pm (List.mem_cons_self _ _) hp'
      rw [dictSet_of_not_mem d pm.2 _ hfr]
      have hmp : missingPairs clients (pm :: rest) =
          (pm.2, "Error: No client available for " ++ pm.1) :: missingPairs clients rest := by
        unfold missingPairs
        rw [List.filter_cons]
        simp [hp']
      have hfresh2 : ∀ pm' ∈ rest, (assocFind clients pm'.1).isSome = false →
          pm'.2 ∉ (d ++ [(pm.2, "Error: No client available for " ++ pm.1)]).map Prod.fst := by
        intro pm' h1 h2
        simp only [List.map_append, List.mem_append, List.map_cons, List.map_nil,
          List.mem_singleton, not_or]
        refine ⟨hfresh pm' (List.mem_cons_of_mem _ h1) h2, ?_⟩
        intro he
        exact hn.1 (he ▸ List.mem_map_of_mem Prod.snd h1)
      rw [ih _ hn.2 hfresh2, hmp]
      simp

theorem missingResponses_eq (clients : List (String × ClientKind))
    (models : List (String × String)) (hnodup : (models.map Prod.snd).Nodup) :
    missingResponses clients models = missingPairs clients models := by
  have h := missingResponses_eq_aux clients models [] hnodup (by intro pm _ _; simp)
  simpa [missingResponses] using h

theorem call_models_lookup (clients : List (String × ClientKind))
    (behavior : String → String → CallOutcome) (models : List (String × String))
    (order : List (String × String))
    (hnodup : (models.map Prod.snd).Nodup)
    (hperm : order.Perm (submittedResults clients behavior models)) (m : String) :
    assocFind (order.foldl (fun d r => dictSet d r.1 r.2) (missingResponses clients models)) m
      = firstSome (assocFind (submittedResults clients behavior models) m)
          (assocFind (missingPairs clients models) m) := by
  obtain ⟨hs, _, _⟩ := submitted_missing_facts clients behavior models hnodup
  rw [assocFind_foldl_dictSet, missingResponses_eq clients models hnodup]
  congr 1
  have hrev : (order.reverse).Perm (submittedResults clients behavior models) :=
    (order.reverse_perm).trans hperm
  have hnr : ((order.reverse).map Prod.fst).Nodup :=
    ((hrev.map Prod.fst).nodup_iff).mpr hs
  exact assocFind_perm _ _ hrev hnr m

theorem call_models_keys (clients : List (String × ClientKind))
    (behavior : String → String → CallOutcome) (models : List (String × String))
    (order : List (String × String))
    (hnodup : (models.map Prod.snd).Nodup)
    (hperm : order.Perm (submittedResults clients behavior models)) :
    ((order.foldl (fun d r => dictSet d r.1 r.2)
        (missingResponses clients models)).map Prod.fst).Perm
      (models.map Prod.snd) := by
  obtain ⟨hs, _, hd⟩ := submitted_missing_facts clients behavior models hnodup
  have hkeys_order : (order.map Prod.fst).Perm
      ((submittedResults clients behavior models).map Prod.fst) := hperm.map _
  have hno : (order.map Prod.fst).Nodup := (hkeys_order.nodup_iff).mpr hs
  have hdisj2 : ∀ k ∈ order.map Prod.fst,
      k ∉ (missingResponses clients models).map Prod.fst := by
    intro k hk
    rw [missingResponses_eq _ _ hnodup]
    exact hd (hkeys_order.mem_iff.mp hk)
  rw [keys_foldl_dictSet_fresh order _ hno hdisj2, missingResponses_eq _ _ hnodup]
  refine (List.Perm.append_left _ hkeys_order).trans ?_
  refine (List.perm_append_comm).trans ?_
  rw [submittedResults_keys, missingPairs_keys, ← List.map_append]
  exact (List.filter_append_perm _ models).map Prod.snd

/-- C1 (amended): in a dispatch round whose requested model ids are pairwise
distinct and whose request set is non-empty (an empty round makes
`ThreadPoolExecutor(max_workers=0)` raise), `call_models` returns a
`ResponseSet` with exactly one entry per requested model id: a model whose
provider is absent from the registry maps to
`"Error: No client available for {provider}"`, a model whose call raises
maps to `"Error: "` followed by the exception message, and every other model
maps to the text its provider call returned; no requested model is
dropped. -/
theorem call_models_complete_responses (clients : List (String × ClientKind))
    (behavior : String → String → CallOutcome) (models : List (String × String))
    (order : List (String × String))
    (hne : models ≠ [])
    (hnodup : (models.map Prod.snd).Nodup)
    (hperm : order.Perm (submittedResults clients behavior models)) :
    ∃ R, call_models clients behavior models order = some R ∧
      (R.map Prod.fst).Perm (models.map Prod.snd) ∧
      (∀ pm ∈ models, assocFind clients pm.1 = none →
        assocFind R pm.2 = some ("Error: No client available for " ++ pm.1)) ∧
      (∀ pm ∈ models, ∀ k, assocFind clients pm.1 = some k →
        assocFind R pm.2 = some ((call_single_model k (behavior pm.1 pm.2) pm.2).2)) ∧
      (∀ pm ∈ models, ∀ k e, assocFind clients pm.1 = some k →
        k ≠ ClientKind.otherK → behavior pm.1 pm.2 = CallOutcome.exn e →
        assocFind R pm.2 = some ("Error: " ++ e)) ∧
      (∀ pm ∈ models, ∀ k t, assocFind clients pm.1 = some k →
        k ≠ ClientKind.otherK → behavior pm.1 pm.2 = CallOutcome.ok t →
        assocFind R pm.2 = some t) := by
  have hie : models.isEmpty = false := by
    cases models with
    | nil => exact absurd rfl hne
    | cons a l => rfl
  obtain ⟨hs, hm, hd⟩ := submitted_missing_facts clients behavior models hnodup
  have hlook := call_models_lookup clients behavior models order hnodup hperm
  have hmiss : ∀ pm ∈ models, assocFind clients pm.1 = none →
      assocFind (order.foldl (fun d r => dictSet d r.1 r.2)
          (missingResponses clients models)) pm.2 =
        some ("Error: No client available for " ++ pm.1) := by
    intro pm hpm hfind
    rw [hlook pm.2]
    have hfil : pm ∈ models.filter (fun pm => !(assocFind clients pm.1).isSome) :=
      List.mem_filter.mpr ⟨hpm, by simp [hfind]⟩
    have hmem : (pm.2, "Error: No client available for " ++ pm.1) ∈
        missingPairs clients models :=
      List.mem_map.mpr ⟨pm, hfil, rfl⟩
    have hkey : pm.2 ∈ (missingPairs clients models).map Prod.fst :=
      List.mem_map.mpr ⟨_, hmem, rfl⟩
    have hnots : assocFind (submittedResults clients behavior models) pm.2 = none := by
      rw [assocFind_eq_none_iff]
      intro hin
      exact hd hin hkey
    rw [hnots, assocFind_eq_some_of_mem _ hm _ _ hmem]
    rfl
  have hgen : ∀ pm ∈ models, ∀ k, assocFind clients pm.1 = some k →
      assocFind (order.foldl (fun d r => dictSet d r.1 r.2)
          (missingResponses clients models)) pm.2 =
        some ((call_single_model k (behavior pm.1 pm.2) pm.2).2) := by
    intro pm hpm k hfind
    rw [hlook pm.2]
    have hfil : pm ∈ models.filter (fun pm => (assocFind clients pm.1).isSome) :=
      List.mem_filter.mpr ⟨hpm, by simp [hfind]⟩
    have hmem : call_single_model ((assocFind clients pm.1).getD ClientKind.otherK)
        (behavior pm.1 pm.2) pm.2 ∈ submittedResults clients behavior models :=
      List.mem_map.mpr ⟨pm, hfil, rfl⟩
    rw [hfind] at hmem
    simp only [Option.getD_some] at hmem
    have hpair : call_single_model k (behavior pm.1 pm.2) pm.2 =
        (pm.2, (call_single_model k (behavior pm.1 pm.2) pm.2).2) :=
      Prod.ext (call_single_model_fst k (behavior pm.1 pm.2) pm.2) rfl
    rw [hpair] at hmem
    rw [assocFind_eq_some_of_mem _ hs _ _ hmem]
    rfl
  refine ⟨order.foldl (fun d r => dictSet d r.1 r.2) (missingResponses clients models),
    by simp [call_models, hie], call_models_keys clients behavior models order hnodup hperm,
    hmiss, hgen, ?_, ?_⟩
  · intro pm hpm k e hfind hk hb
    rw [hgen pm hpm k hfind, hb, call_single_model_snd_exn k hk]
  · intro pm hpm k t hfind hk hb
    rw [hgen pm hpm k hfind, hb, call_single_model_snd_ok k hk]

/-- Witness for C1 at a two-entry round with one registry-missing provider:
the returned set keys both models, the missing provider's model carries the
error string, and the live model carries the returned text. -/
theorem call_models_complete_responses_witness :
    ∃ R, call_models [("openai", ClientKind.openaiK)] (fun _ _ => CallOutcome.ok "hi")
        [("openai", "gpt"), ("missing", "m2")]
        (submittedResults [("openai", ClientKind.openaiK)] (fun _ _ => CallOutcome.ok "hi")
          [("openai", "gpt"), ("missing", "m2")]) = some R ∧
      (R.map Prod.fst).Perm (([("openai", "gpt"), ("missing", "m2")] :
        List (String × String)).map Prod.snd) ∧
      (∀ pm ∈ ([("openai", "gpt"), ("missing", "m2")] : List (String × String)),
        assocFind [("openai", ClientKind.openaiK)] pm.1 = none →
        assocFind R pm.2 = some ("Error: No client available for " ++ pm.1)) ∧
      (∀ pm ∈ ([("openai", "gpt"), ("missing", "m2")] : List (String × String)), ∀ k,
        assocFind [("openai", ClientKind.openaiK)] pm.1 = some k →
        assocFind R pm.2 = some ((call_single_model k
          ((fun _ _ => CallOutcome.ok "hi") pm.1 pm.2) pm.2).2)) ∧
      (∀ pm ∈ ([("openai", "gpt"), ("missing", "m2")] : List (String × String)), ∀ k e,
        assocFind [("openai", ClientKind.openaiK)] pm.1 = some k →
        k ≠ ClientKind.otherK →
        (fun _ _ => CallOutcome.ok "hi") pm.1 pm.2 = CallOutcome.exn e →
        assocFind R pm.2 = some ("Error: " ++ e)) ∧
      (∀ pm ∈ ([("openai", "gpt"), ("missing", "m2")] : List (String × String)), ∀ k t,
        assocFind [("openai", ClientKind.openaiK)] pm.1 = some k →
        k ≠ ClientKind.otherK →
        (fun _ _ => CallOutcome.ok "hi") pm.1 pm.2 = CallOutcome.ok t →
        assocFind R pm.2 = some t) :=
  call_models_complete_responses [("openai", ClientKind.openaiK)]
    (fun _ _ => CallOutcome.ok "hi") [("openai", "gpt"), ("missing", "m2")] _
    (by decide) (by decide) (List.Perm.refl _)

/-- C1 counterexample: with two providers requesting the same model id `"m"`
and provider `"p1"` missing from the registry, the error entry recorded for
`"p1"` is overwritten by provider `"p2"`'s delivered response, so the round
does not keep one error-marked entry per registry-missing request; and an
empty requested-models mapping makes `call_models` raise
(`ThreadPoolExecutor(max_workers=0)`) instead of returning a set. -/
theorem call_models_claim_counterexample :
    submittedResults [("p2", ClientKind.openaiK)] (fun _ _ => CallOutcome.ok "hi")
        [("p1", "m"), ("p2", "m")] = [("m", "hi")] ∧
    call_models [("p2", ClientKind.openaiK)] (fun _ _ => CallOutcome.ok "hi")
        [("p1", "m"), ("p2", "m")] [("m", "hi")] = some [("m", "hi")] ∧
    call_models [("p2", ClientKind.openaiK)] (fun _ _ => CallOutcome.ok "hi") [] []
      = none := by
  refine ⟨rfl, rfl, rfl⟩

/-- C9 (amended): for a round whose requested model ids are pairwise
distinct, any two delivery orders of the same multiset of worker results
produce the same `ResponseSet` as a mapping from model id to response
text. -/
theorem call_models_order_independent (clients : List (String × ClientKind))
    (behavior : String → String → CallOutcome) (models : List (String × String))
    (o1 o2 : List (String × String))
    (hne : models ≠ [])
    (hnodup : (models.map Prod.snd).Nodup)
    (h1 : o1.Perm (submittedResults clients behavior models))
    (h2 : o2.Perm (submittedResults clients behavior models)) :
    ∃ R1 R2, call_models clients behavior models o1 = some R1 ∧
      call_models clients behavior models o2 = some R2 ∧
      ∀ m, assocFind R1 m = assocFind R2 m := by
  have hie : models.isEmpty = false := by
    cases models with
    | nil => exact absurd rfl hne
    | cons a l => rfl
  refine ⟨o1.foldl (fun d r => dictSet d r.1 r.2) (missingResponses clients models),
    o2.foldl (fun d r => dictSet d r.1 r.2) (missingResponses clients models),
    by simp [call_models, hie], by simp [call_models, hie], ?_⟩
  intro m
  rw [call_models_lookup clients behavior models o1 hnodup h1 m,
    call_models_lookup clients behavior models o2 hnodup h2 m]

/-- Witness for C9: the two-model round delivered in submission order and in
reversed order. -/
theorem call_models_order_independent_witness :
    ∃ R1 R2, call_models [("p1", ClientKind.openaiK), ("p2", ClientKind.openaiK)]
        (fun p _ => CallOutcome.ok (if p = "p1" then "a" else "b"))
        [("p1", "m1"), ("p2", "m2")]
        (submittedResults [("p1", ClientKind.openaiK), ("p2", ClientKind.openaiK)]
          (fun p _ => CallOutcome.ok (if p = "p1" then "a" else "b"))
          [("p1", "m1"), ("p2", "m2")]) = some R1 ∧
      call_models [("p1", ClientKind.openaiK), ("p2", ClientKind.openaiK)]
        (fun p _ => CallOutcome.ok (if p = "p1" then "a" else "b"))
        [("p1", "m1"), ("p2", "m2")]
        (submittedResults [("p1", ClientKind.openaiK), ("p2", ClientKind.openaiK)]
          (fun p _ => CallOutcome.ok (if p = "p1" then "a" else "b"))
          [("p1", "m1"), ("p2", "m2")]).reverse = some R2 ∧
      ∀ m, assocFind R1 m = assocFind R2 m :=
  call_models_order_independent _ _ _ _ _ (by decide) (by decide)
    (List.Perm.refl _) (List.reverse_perm _)

/-- C9 counterexample: when two providers request the same model id, the two
delivery orders of the same result multiset yield different mappings
(last-write-wins on the shared key), refuting the claim without the
distinct-model-id restriction. -/
theorem fanin_order_counterexample :
    submittedResults [("p1", ClientKind.openaiK), ("p2", ClientKind.openaiK)]
        (fun p _ => CallOutcome.ok (if p = "p1" then "a" else "b"))
        [("p1", "m"), ("p2", "m")] = [("m", "a"), ("m", "b")] ∧
    List.Perm [("m", "a"), ("m", "b")] [("m", "b"), ("m", "a")] ∧
    call_models [("p1", ClientKind.openaiK), ("p2", ClientKind.openaiK)]
        (fun p _ => CallOutcome.ok (if p = "p1" then "a" else "b"))
        [("p1", "m"), ("p2", "m")] [("m", "a"), ("m", "b")] = some [("m", "b")] ∧
    call_models [("p1", ClientKind.openaiK), ("p2", ClientKind.openaiK)]
        (fun p _ => CallOutcome.ok (if p = "p1" then "a" else "b"))
        [("p1", "m"), ("p2", "m")] [("m", "b"), ("m", "a")] = some [("m", "a")] := by
  refine ⟨rfl, by decide, rfl, rfl⟩

section AggregationLemmas

variable {α : Type} [DecidableEq α]

theorem mem_insertSorted (x y : α × ℚ) (l : List (α × ℚ)) :
    y ∈ insertSorted x l ↔ y = x ∨ y ∈ l := by
  induction l with
  | nil => simp [insertSorted]
  | cons z zs ih =>
    by_cases h : z.2 < x.2
    · rw [insertSorted, if_pos h]
      simp only [List.mem_cons, ih]
      tauto
    · rw [insertSorted, if_neg h]
      simp only [List.mem_cons]

theorem pairwise_insertSorted (x : α × ℚ) (l : List (α × ℚ))
    (hl : l.Pairwise (fun p q => p.2 ≤ q.2)) :
    (insertSorted x l).Pairwise (fun p q => p.2 ≤ q.2) := by
  induction l with
  | nil => simp [insertSorted]
  | cons z zs ih =>
    rcases List.pairwise_cons.mp hl with ⟨hz, hzs⟩
    by_cases h : z.2 < x.2
    · rw [insertSorted, if_pos h]
      refine List.pairwise_cons.mpr ⟨?_, ih hzs⟩
      intro y hy
      rcases (mem_insertSorted x y zs).mp hy with rfl | hy2
      · exact le_of_lt h
      · exact hz y hy2
    · rw [insertSorted, if_neg h]
      refine List.pairwise_cons.mpr ⟨?_, hl⟩
      intro y hy
      rcases List.mem_cons.mp hy with rfl | hy2
      · exact le_of_not_lt h
      · exact le_trans (le_of_not_lt h) (hz y hy2)

theorem filter_insertSorted (x : α × ℚ) (l : List (α × ℚ)) (q : ℚ) :
    (insertSorted x l).filter (fun p => decide (p.2 = q)) =
      if x.2 = q then x :: l.filter (fun p => decide (p.2 = q))
      else l.filter (fun p => decide (p.2 = q)) := by
  induction l with
  | nil =>
    by_cases h : x.2 = q <;> simp [insertSorted, h]
  | cons z zs ih =>
    by_cases h : z.2 < x.2
    · rw [insertSorted, if_pos h]
      by_cases hx : x.2 = q
      · have hz : ¬ z.2 = q := ne_of_lt (hx ▸ h)
        simp [List.filter_cons, hz, ih, hx]
      · simp [List.filter_cons, ih, hx]
    · rw [insertSorted, if_neg h]
      by_cases hx : x.2 = q <;> simp [List.filter_cons, hx]

theorem foldr_insertSorted_pairwise (l : List (α × ℚ)) :
    (l.foldr insertSorted []).Pairwise (fun p q => p.2 ≤ q.2) := by
  induction l with
  | nil => simp
  | cons x xs ih => exact pairwise_insertSorted x _ ih

theorem filter_foldr_insertSorted (l : List (α × ℚ)) (q : ℚ) :
    (l.foldr insertSorted []).filter (fun p => decide (p.2 = q)) =
      l.filter (fun p => decide (p.2 = q)) := by
  induction l with
  | nil => simp
  | cons x xs ih =>
    by_cases hx : x.2 = q <;>
      simp [List.foldr_cons, filter_insertSorted, hx, ih, List.filter_cons]

theorem mem_foldr_insertSorted (l : List (α × ℚ)) (y : α × ℚ) :
    y ∈ l.foldr insertSorted [] ↔ y ∈ l := by
  induction l with
  | nil => simp
  | cons x xs ih => simp [List.foldr_cons, mem_insertSorted, ih]

theorem mem_foldl_insertKey (l : List α) (ks : List α) (a : α) :
    a ∈ l.foldl insertKey ks ↔ a ∈ ks ∨ a ∈ l := by
  induction l generalizing ks with
  | nil => simp
  | cons x xs ih =>
    rw [List.foldl_cons, ih]
    unfold insertKey
    by_cases h : x ∈ ks
    · rw [if_pos h]
      simp only [List.mem_cons]
      constructor
      · rintro (h1 | h1)
        · exact Or.inl h1
        · exact Or.inr (Or.inr h1)
      · rintro (h1 | rfl | h1)
        · exact Or.inl h1
        · exact Or.inl h
        · exact Or.inr h1
    · rw [if_neg h]
      simp only [List.mem_append, List.mem_singleton, List.mem_cons]
      tauto

theorem nodup_foldl_insertKey (l : List α) (ks : List α) (hn : ks.Nodup) :
    (l.foldl insertKey ks).Nodup := by
  induction l generalizing ks with
  | nil => exact hn
  | cons x xs ih =>
    rw [List.foldl_cons]
    apply ih
    unfold insertKey
    by_cases h : x ∈ ks
    · rwa [if_pos h]
    · rw [if_neg h]
      simp [List.nodup_append, hn, h]

theorem rankingPositions_eq_nil_iff (r : List α) (c : α) :
    rankingPositions r c = [] ↔ c ∉ r := by
  unfold rankingPositions
  rw [List.map_eq_nil_iff, List.filter_eq_nil_iff]
  constructor
  · intro h hc
    rw [← List.enum_map_snd r] at hc
    obtain ⟨p, hp, hpc⟩ := List.mem_map.mp hc
    exact h p hp (by simp [hpc])
  · intro h p hp
    simp only [decide_eq_true_eq]
    intro hpc
    apply h
    rw [← List.enum_map_snd r]
    exact List.mem_map.mpr ⟨p, hp, hpc⟩

theorem positionsOf_eq_nil_iff (rankings : List (List α)) (c : α) :
    positionsOf rankings c = [] ↔ c ∉ rankings.flatten := by
  unfold positionsOf
  rw [List.flatten_eq_nil_iff]
  constructor
  · intro h hc
    obtain ⟨r, hr, hcr⟩ := List.mem_flatten.mp hc
    exact (rankingPositions_eq_nil_iff r c).mp (h _ (List.mem_map_of_mem _ hr)) hcr
  · intro h ps hps
    obtain ⟨r, hr, rfl⟩ := List.mem_map.mp hps
    exact (rankingPositions_eq_nil_iff r c).mpr
      (fun hc => h (List.mem_flatten.mpr ⟨r, hr, hc⟩))

theorem assocFind_filterMap_keyed {β : Type} (ks : List α) (F : α → Option (α × β))
    (hF : ∀ k e, F k = some e → e.1 = k)
    (hnd : ks.Nodup) (c : α) (e : α × β) (hc : c ∈ ks) (he : F c = some e) :
    assocFind (ks.filterMap F) c = some e.2 := by
  induction ks with
  | nil => simp at hc
  | cons k ks ih =>
    simp only [List.nodup_cons] at hnd
    rcases List.mem_cons.mp hc with rfl | hc2
    · rw [List.filterMap_cons_some he]
      have h1 : e.1 = c := hF c e he
      simp [assocFind, h1]
    · cases hFk : F k with
      | none =>
        rw [List.filterMap_cons_none hFk]
        exact ih hnd.2 hc2
      | some e2 =>
        rw [List.filterMap_cons_some hFk]
        have hkc : ¬ e2.1 = c := by
          rw [hF k e2 hFk]
          exact fun hh => hnd.1 (hh ▸ hc2)
        simp only [assocFind, hkc, if_false]
        exact ih hnd.2 hc2

theorem aggregates_ignore_empty (pre post : List (List α)) :
    (∀ c, positionsOf (pre ++ [] :: post) c = positionsOf (pre ++ post) c) ∧
    average_rankings (pre ++ [] :: post) = average_rankings (pre ++ post) ∧
    sorted_results (pre ++ [] :: post) = sorted_results (pre ++ post) := by
  have hpos : ∀ c, positionsOf (pre ++ [] :: post) c = positionsOf (pre ++ post) c := by
    intro c
    unfold positionsOf
    simp [rankingPositions]
  have hflat : (pre ++ [] :: post).flatten = (pre ++ post).flatten := by
    simp
  have havg : average_rankings (pre ++ [] :: post) = average_rankings (pre ++ post) := by
    unfold average_rankings contestant_rankings
    rw [hflat]
    have hmap : (firstKeys (pre ++ post).flatten).map
          (fun c => (c, positionsOf (pre ++ [] :: post) c)) =
        (firstKeys (pre ++ post).flatten).map
          (fun c => (c, positionsOf (pre ++ post) c)) :=
      List.map_congr_left (fun c _ => by rw [hpos c])
    rw [hmap]
  refine ⟨hpos, havg, ?_⟩
  unfold sorted_results
  rw [havg]

end AggregationLemmas

/-- C4: a judge text with no extractable JSON yields the empty ranking for
that judge without an exception (the `TypeError` of `parsed["results"]` is
caught and `[]` is appended), and the aggregation gives that judge no rank
positions: inserting an empty ranking anywhere leaves the accumulated
positions, the averages and the final ordering unchanged. -/
theorem unparseable_judge_empty_ranking (t : List Char)
    (h : extract_json_response t = none) :
    step5Ranking t = JsonVal.arr [] ∧
    pyIter (step5Ranking t) = some [] ∧
    (∀ (pre post : List (List String)) (c : String),
      positionsOf (pre ++ [] :: post) c = positionsOf (pre ++ post) c) ∧
    (∀ pre post : List (List String),
      average_rankings (pre ++ [] :: post) = average_rankings (pre ++ post) ∧
      sorted_results (pre ++ [] :: post) = sorted_results (pre ++ post)) :=
  ⟨by simp [step5Ranking, h], by simp [step5Ranking, h, pyIter],
   fun pre post c => (aggregates_ignore_empty pre post).1 c,
   fun pre post => ⟨(aggregates_ignore_empty pre post).2.1,
     (aggregates_ignore_empty pre post).2.2⟩⟩

/-- Witness for C4 at a judge output that is plain prose. -/
theorem unparseable_judge_empty_ranking_witness :
    step5Ranking ("I would rather not rank anyone.".toList) = JsonVal.arr [] ∧
    pyIter (step5Ranking ("I would rather not rank anyone.".toList)) = some [] :=
  ⟨(unparseable_judge_empty_ranking _ (by rfl)).1,
   (unparseable_judge_empty_ranking _ (by rfl)).2.1⟩

/-- C5: the aggregation maps every mentioned competitor to the arithmetic
mean of its 1-based positions across the judge rankings, and on the spec's
example the positions are C1 ↦ [1,2,1], C2 ↦ [2,1,3], C3 ↦ [3,3,2], the
averages 4/3, 2, 8/3, and the final order [C1, C2, C3]. -/
theorem average_rank_aggregation :
    (∀ (rankings : List (List String)) (c : String), c ∈ rankings.flatten →
      assocFind (average_rankings rankings) c =
        some (((positionsOf rankings c).sum : ℚ) /
          ((positionsOf rankings c).length : ℚ))) ∧
    positionsOf exampleRankings "C1" = [1, 2, 1] ∧
    positionsOf exampleRankings "C2" = [2, 1, 3] ∧
    positionsOf exampleRankings "C3" = [3, 3, 2] ∧
    average_rankings exampleRankings = [("C1", 4/3), ("C2", 2), ("C3", 8/3)] ∧
    sorted_results exampleRankings = [("C1", 4/3), ("C2", 2), ("C3", 8/3)] := by
  refine ⟨?_, by decide, by decide, by decide, ?_, ?_⟩
  · intro rankings c hc
    have hne : ¬ (positionsOf rankings c).isEmpty = true := by
      rw [List.isEmpty_iff, positionsOf_eq_nil_iff]
      exact fun hn => hn hc
    unfold average_rankings contestant_rankings
    rw [List.filterMap_map]
    refine assocFind_filterMap_keyed _ _ ?_ (nodup_foldl_insertKey _ _ List.nodup_nil) c
      (c, ((positionsOf rankings c).sum : ℚ) / ((positionsOf rankings c).length : ℚ))
      ((mem_foldl_insertKey _ _ _).mpr (Or.inr hc)) ?_
    · intro k e he
      simp only [Function.comp_apply] at he
      by_cases hk : (positionsOf rankings k).isEmpty = true
      · rw [if_pos hk] at he
        exact absurd he (by simp)
      · rw [if_neg hk] at he
        rw [← Option.some_inj.mp he]
    · simp only [Function.comp_apply]
      rw [if_neg hne]
  · simp [exampleRankings, average_rankings, contestant_rankings, firstKeys,
      insertKey, positionsOf, rankingPositions, List.enum]
    norm_num
  · simp [exampleRankings, sorted_results, average_rankings, contestant_rankings,
      firstKeys, insertKey, positionsOf, rankingPositions, List.enum]
    norm_num [insertSorted]

/-- Witness for C5's general clause at the example's competitor C1. -/
theorem average_rank_aggregation_witness :
    assocFind (average_rankings exampleRankings) "C1" =
      some (((positionsOf exampleRankings "C1").sum : ℚ) /
        ((positionsOf exampleRankings "C1").length : ℚ)) :=
  average_rank_aggregation.1 exampleRankings "C1" (by decide)

/-- C6: a competitor id appearing in no judge ranking is absent from the
aggregate mapping and from the final sorted output — excluded rather than
assigned a worst rank. -/
theorem unranked_competitor_excluded (rankings : List (List String)) (c : String)
    (h : ∀ r ∈ rankings, c ∉ r) :
    c ∉ (average_rankings rankings).map Prod.fst ∧
    c ∉ (sorted_results rankings).map Prod.fst := by
  have hflat : c ∉ rankings.flatten := by
    intro hc
    obtain ⟨r, hr, hcr⟩ := List.mem_flatten.mp hc
    exact h r hr hcr
  have havg : c ∉ (average_rankings rankings).map Prod.fst := by
    intro hc
    obtain ⟨p, hp, hpc⟩ := List.mem_map.mp hc
    obtain ⟨cr, hcr, hpcr⟩ := List.mem_filterMap.mp hp
    obtain ⟨k, hk, rfl⟩ := List.mem_map.mp hcr
    by_cases hemp : (positionsOf rankings k).isEmpty = true
    · rw [if_pos hemp] at hpcr
      exact absurd hpcr (by simp)
    · rw [if_neg hemp] at hpcr
      have hp1 : p.1 = k := by
        rw [← Option.some_inj.mp hpcr]
      apply hflat
      have hkmem : k ∈ firstKeys rankings.flatten := hk
      have := (mem_foldl_insertKey rankings.flatten [] k).mp hkmem
      rcases this with h0 | h0
      · exact absurd h0 (by simp)
      · rw [← hpc, hp1]
        exact h0
  refine ⟨havg, ?_⟩
  intro hc
  obtain ⟨p, hp, hpc⟩ := List.mem_map.mp hc
  exact havg (List.mem_map.mpr ⟨p, (mem_foldr_insertSorted _ p).mp hp, hpc⟩)

/-- Witness for C6: C9 is ranked by neither judge and appears in neither
output. -/
theorem unranked_competitor_excluded_witness :
    "C9" ∉ (average_rankings [["C1", "C2"], ["C2", "C1"]]).map Prod.fst ∧
    "C9" ∉ (sorted_results [["C1", "C2"], ["C2", "C1"]]).map Prod.fst :=
  unranked_competitor_excluded _ _ (by decide)

/-- C8: the final ordering is ascending in average rank, and it is stable:
restricted to any fixed average value, the output lists exactly the
competitors of `average_rankings` with that average, in their original
insertion order. -/
theorem sorted_results_sorted_stable (rankings : List (List String)) :
    (sorted_results rankings).Pairwise (fun p q => p.2 ≤ q.2) ∧
    ∀ q : ℚ, (sorted_results rankings).filter (fun p => decide (p.2 = q)) =
      (average_rankings rankings).filter (fun p => decide (p.2 = q)) :=
  ⟨foldr_insertSorted_pairwise (average_rankings rankings),
   fun q => filter_foldr_insertSorted (average_rankings rankings) q⟩

theorem startsWithL_iff (l n : List Char) :
    startsWithL l n = true ↔ l.take n.length = n := by
  induction n generalizing l with
  | nil => simp [startsWithL]
  | cons p ps ih =>
    cases l with
    | nil => simp [startsWithL]
    | cons c cs =>
      rw [startsWithL, List.length_cons, List.take_succ_cons]
      simp [ih]

theorem findSub_eq_some_spec (needle t : List Char) (i : ℕ)
    (h : findSub needle t = some i) :
    occursAt needle t i = true ∧ ∀ j, j < i → occursAt needle t j = false := by
  induction t generalizing i with
  | nil =>
    rw [findSub] at h
    by_cases hs : startsWithL [] needle = true
    · rw [if_pos hs] at h
      have h0 : i = 0 := by
        injection h with hh
        omega
      subst h0
      refine ⟨?_, fun j hj => absurd hj (by omega)⟩
      rw [occursAt, beq_iff_eq, List.drop_nil]
      exact (startsWithL_iff [] needle).mp hs
    · rw [if_neg hs] at h
      cases h
  | cons c cs ih =>
    rw [findSub] at h
    by_cases hs : startsWithL (c :: cs) needle = true
    · rw [if_pos hs] at h
      have h0 : i = 0 := by
        injection h with hh
        omega
      subst h0
      refine ⟨?_, fun j hj => absurd hj (by omega)⟩
      rw [occursAt, beq_iff_eq, List.drop_zero]
      exact (startsWithL_iff _ needle).mp hs
    · rw [if_neg hs] at h
      cases hfs : findSub needle cs with
      | none =>
        rw [hfs] at h
        cases h
      | some i0 =>
        rw [hfs] at h
        simp at h
        obtain ⟨h1, h2⟩ := ih i0 hfs
        subst h
        constructor
        · rw [occursAt, List.drop_succ_cons]
          exact h1
        · intro j hj
          cases j with
          | zero =>
            rw [occursAt, List.drop_zero]
            cases hoc : ((c :: cs).take needle.length == needle) with
            | false => rfl
            | true =>
              exact absurd ((startsWithL_iff _ _).mpr (beq_iff_eq.mp hoc)) hs
          | succ j0 =>
            rw [occursAt, List.drop_succ_cons]
            exact h2 j0 (by omega)

theorem findSub_eq_none_spec (needle t : List Char)
    (h : findSub needle t = none) :
    ∀ i, occursAt needle t i = false := by
  induction t with
  | nil =>
    intro i
    rw [findSub] at h
    by_cases hs : startsWithL [] needle = true
    · rw [if_pos hs] at h
      cases h
    · rw [occursAt, List.drop_nil]
      cases hoc : (List.take needle.length [] == needle) with
      | false => rfl
      | true =>
        exact absurd ((startsWithL_iff _ _).mpr (beq_iff_eq.mp hoc)) hs
  | cons c cs ih =>
    intro i
    rw [findSub] at h
    by_cases hs : startsWithL (c :: cs) needle = true
    · rw [if_pos hs] at h
      cases h
    · rw [if_neg hs] at h
      cases hfs : findSub needle cs with
      | some i0 =>
        rw [hfs] at h
        cases h
      | none =>
        cases i with
        | zero =>
          rw [occursAt, List.drop_zero]
          cases hoc : ((c :: cs).take needle.length == needle) with
          | false => rfl
          | true =>
            exact absurd ((startsWithL_iff _ _).mpr (beq_iff_eq.mp hoc)) hs
        | succ j =>
          rw [occursAt, List.drop_succ_cons]
          exact ih hfs j

theorem occursAt_singleton_iff (c : Char) (l : List Char) (k : ℕ) :
    occursAt [c] l k = true ↔ l[k]? = some c := by
  rw [occursAt, beq_iff_eq]
  cases hd : l.drop k with
  | nil =>
    have hk : l.length ≤ k := by
      have := congrArg List.length hd
      simp at this
      omega
    rw [List.getElem?_eq_none hk]
    simp
  | cons a rest =>
    have hget : l[k]? = some a := by
      have := List.getElem?_drop l k 0
      rw [hd] at this
      simpa using this.symm
    rw [hget]
    simp [List.length_cons, List.take_succ_cons]

theorem matchResultsSpan_none_iff (t : List Char) :
    matchResultsSpan t = none ↔
      ¬ ∃ i j, occursAt RESLIT t i = true ∧ i + RESLIT.length ≤ j ∧
        t[j]? = some '\x7d' := by
  rw [matchResultsSpan]
  split
  · rename_i hf
    constructor
    · rintro _ ⟨i, j, h1, _, _⟩
      rw [findSub_eq_none_spec RESLIT t hf i] at h1
      cases h1
    · intro _
      rfl
  · rename_i i hf
    obtain ⟨hocc, hmin⟩ := findSub_eq_some_spec RESLIT t i hf
    split
    · rename_i hb
      constructor
      · rintro _ ⟨i2, j, h1, h2, h3⟩
        have hii : i ≤ i2 := by
          by_contra hlt
          push_neg at hlt
          rw [hmin i2 hlt] at h1
          cases h1
        have hocc2 : occursAt ['\x7d'] ((t.drop i).drop RESLIT.length)
            (j - (i + RESLIT.length)) = true := by
          rw [occursAt_singleton_iff, List.getElem?_drop, List.getElem?_drop]
          have he : i + (RESLIT.length + (j - (i + RESLIT.length))) = j := by omega
          rw [he]
          exact h3
        rw [findSub_eq_none_spec _ _ hb _] at hocc2
        cases hocc2
      · intro _
        rfl
    · rename_i k hb
      obtain ⟨hocc2, _⟩ := findSub_eq_some_spec _ _ k hb
      have hex : ∃ i j, occursAt RESLIT t i = true ∧ i + RESLIT.length ≤ j ∧
          t[j]? = some '\x7d' := by
        refine ⟨i, i + RESLIT.length + k, hocc, by omega, ?_⟩
        rw [occursAt_singleton_iff, List.getElem?_drop, List.getElem?_drop] at hocc2
        have he : i + (RESLIT.length + k) = i + RESLIT.length + k := by omega
        rw [he] at hocc2
        exact hocc2
      exact iff_of_false (by simp) (fun hne => hne hex)

/-- C2 (amended): `extract_json_response` first regex-matches a `{"results"`
span (a match exists exactly when the literal occurs and a `}` follows it)
and parses that span; when the span parses, its value is the result; when
the span fails to parse, the routine falls back to `extract_complete_json`;
but when the regex does not match at all it returns `None` immediately,
without consulting the fallback. -/
theorem extract_json_response_dispatch (t : List Char) :
    (matchResultsSpan t = none ↔
      ¬ ∃ i j, occursAt RESLIT t i = true ∧ i + RESLIT.length ≤ j ∧
        t[j]? = some '\x7d') ∧
    (matchResultsSpan t = none → extract_json_response t = none) ∧
    (∀ s v, matchResultsSpan t = some s → jsonParse s = some v →
      extract_json_response t = some v) ∧
    (∀ s, matchResultsSpan t = some s → jsonParse s = none →
      extract_json_response t = extract_complete_json t) := by
  refine ⟨matchResultsSpan_none_iff t, ?_, ?_, ?_⟩
  · intro h
    simp only [extract_json_response, h]
  · intro s v h1 h2
    simp only [extract_json_response, h1, h2]
  · intro s h1 h2
    simp only [extract_json_response, h1, h2]

/-- Witness for C2 at three concrete judge outputs: no marker at all (regex
fails, result is `None`), a clean `{"results"...}` span (regex path
succeeds), and an invalid span followed by a `{"response"` marker (fallback
consulted). -/
theorem extract_json_response_dispatch_witness :
    extract_json_response ("no marker here".toList) = none ∧
    extract_json_response ("\x7b\"results\": [\"C1\"]\x7d".toList) =
      some (JsonVal.obj [("results".toList, JsonVal.arr [JsonVal.str ("C1".toList)])]) ∧
    extract_json_response ("\x7b\"results\": oops\x7d \x7b\"response\": 1\x7d".toList) =
      extract_complete_json ("\x7b\"results\": oops\x7d \x7b\"response\": 1\x7d".toList) :=
  ⟨(extract_json_response_dispatch _).2.1 (by rfl),
   (extract_json_response_dispatch _).2.2.1 _ _ (by rfl) (by rfl),
   (extract_json_response_dispatch _).2.2.2 _ (by rfl) (by rfl)⟩

/-- C2 counterexample: on `{"response": 1}` the regex stage has no match
and `extract_json_response` returns `None` directly, even though the
brace-counting fallback would have succeeded — the first stage's failure
does not, in general, reach the second stage. -/
theorem extract_json_response_no_fallback_counterexample :
    extract_json_response ("\x7b\"response\": 1\x7d".toList) = none ∧
    extract_complete_json ("\x7b\"response\": 1\x7d".toList) =
      some (JsonVal.obj [("response".toList, JsonVal.num ("1".toList))]) :=
  ⟨rfl, rfl⟩

/-- C3 (amended): on the spec's nested-brace wrapper
`{"response": {"results": ["C1","C2"]}}` the pipeline recovers the correct
ranking, and the recovery is achieved by the non-greedy regex stage — whose
minimal span is exactly the inner `{"results": [...]}` object — not by the
brace-counting fallback, which would instead return the whole wrapper
object. -/
theorem nested_wrapper_regex_recovery :
    matchResultsSpan ("\x7b\"response\": \x7b\"results\": [\"C1\",\"C2\"]\x7d\x7d".toList) =
      some ("\x7b\"results\": [\"C1\",\"C2\"]\x7d".toList) ∧
    jsonParse ("\x7b\"results\": [\"C1\",\"C2\"]\x7d".toList) =
      some (JsonVal.obj [("results".toList,
        JsonVal.arr [JsonVal.str ("C1".toList), JsonVal.str ("C2".toList)])]) ∧
    extract_json_response
        ("\x7b\"response\": \x7b\"results\": [\"C1\",\"C2\"]\x7d\x7d".toList) =
      some (JsonVal.obj [("results".toList,
        JsonVal.arr [JsonVal.str ("C1".toList), JsonVal.str ("C2".toList)])]) ∧
    objLookup (JsonVal.obj [("results".toList,
        JsonVal.arr [JsonVal.str ("C1".toList), JsonVal.str ("C2".toList)])])
        ("results".toList) =
      some (JsonVal.arr [JsonVal.str ("C1".toList), JsonVal.str ("C2".toList)]) :=
  ⟨rfl, rfl, rfl, rfl⟩

/-- C3 counterexample: on the spec's own nested-brace example the
brace-counting fallback does not produce what the pipeline returns — the
pipeline returns the inner `{"results"...}` object (recovered by the regex
stage), while the fallback yields the enclosing `{"response"...}` wrapper,
whose top level has no `"results"` key. -/
theorem nested_wrapper_not_fallback_counterexample :
    extract_json_response
        ("\x7b\"response\": \x7b\"results\": [\"C1\",\"C2\"]\x7d\x7d".toList) =
      some (JsonVal.obj [("results".toList,
        JsonVal.arr [JsonVal.str ("C1".toList), JsonVal.str ("C2".toList)])]) ∧
    extract_complete_json
        ("\x7b\"response\": \x7b\"results\": [\"C1\",\"C2\"]\x7d\x7d".toList) =
      some (JsonVal.obj [("response".toList, JsonVal.obj [("results".toList,
        JsonVal.arr [JsonVal.str ("C1".toList), JsonVal.str ("C2".toList)])])]) ∧
    objLookup (JsonVal.obj [("response".toList, JsonVal.obj [("results".toList,
        JsonVal.arr [JsonVal.str ("C1".toList), JsonVal.str ("C2".toList)])])])
        ("results".toList) = none ∧
    extract_complete_json
        ("\x7b\"response\": \x7b\"results\": [\"C1\",\"C2\"]\x7d\x7d".toList) ≠
      extract_json_response
        ("\x7b\"response\": \x7b\"results\": [\"C1\",\"C2\"]\x7d\x7d".toList) := by
  refine ⟨rfl, rfl, rfl, ?_⟩
  intro h
  have h2 : objLookup (JsonVal.obj [("response".toList, JsonVal.obj [("results".toList,
      JsonVal.arr [JsonVal.str ("C1".toList), JsonVal.str ("C2".toList)])])])
      ("results".toList) =
      objLookup (JsonVal.obj [("results".toList,
      JsonVal.arr [JsonVal.str ("C1".toList), JsonVal.str ("C2".toList)])])
      ("results".toList) := by
    have ha : extract_complete_json
        ("\x7b\"response\": \x7b\"results\": [\"C1\",\"C2\"]\x7d\x7d".toList) =
        some (JsonVal.obj [("response".toList, JsonVal.obj [("results".toList,
          JsonVal.arr [JsonVal.str ("C1".toList), JsonVal.str ("C2".toList)])])]) := rfl
    have hb : extract_json_response
        ("\x7b\"response\": \x7b\"results\": [\"C1\",\"C2\"]\x7d\x7d".toList) =
        some (JsonVal.obj [("results".toList,
          JsonVal.arr [JsonVal.str ("C1".toList), JsonVal.str ("C2".toList)])]) := rfl
    rw [ha, hb] at h
    rw [Option.some_inj.mp h]
  rw [show objLookup (JsonVal.obj [("response".toList, JsonVal.obj [("results".toList,
      JsonVal.arr [JsonVal.str ("C1".toList), JsonVal.str ("C2".toList)])])])
      ("results".toList) = none from rfl] at h2
  rw [show objLookup (JsonVal.obj [("results".toList,
      JsonVal.arr [JsonVal.str ("C1".toList), JsonVal.str ("C2".toList)])])
      ("results".toList) =
      some (JsonVal.arr [JsonVal.str ("C1".toList), JsonVal.str ("C2".toList)]) from rfl] at h2
  cases h2

theorem digitChar_facts (d : ℕ) (hd : d < 10) :
    charVal (digitChar d) = d ∧ isDigitCh (digitChar d) = true ∧
    Char.toLower (digitChar d) = digitChar d ∧ ¬ digitChar d = 'c' := by
  interval_cases d <;> exact ⟨by decide, by decide, by decide, by decide⟩

theorem natDigitsRev_lt (fuel n : ℕ) : ∀ d ∈ natDigitsRev fuel n, d < 10 := by
  induction fuel generalizing n with
  | zero =>
    intro d hd
    simp [natDigitsRev] at hd
  | succ f ih =>
    intro d hd
    cases n with
    | zero => simp [natDigitsRev] at hd
    | succ m =>
      rw [natDigitsRev] at hd
      rcases List.mem_cons.mp hd with rfl | hd2
      · exact Nat.mod_lt _ (by omega)
      · exact ih _ d hd2

theorem foldl_digits_value (fuel n : ℕ) (hfn : n ≤ fuel) (a : ℕ) :
    List.foldl (fun acc d => 10 * acc + d) a (natDigitsRev fuel n).reverse =
      a * 10 ^ (natDigitsRev fuel n).length + n := by
  induction fuel generalizing n a with
  | zero =>
    have hn0 : n = 0 := by omega
    subst hn0
    simp [natDigitsRev]
  | succ f ih =>
    cases n with
    | zero => simp [natDigitsRev]
    | succ m =>
      rw [natDigitsRev, List.reverse_cons, List.foldl_append]
      have hle : (m + 1) / 10 ≤ f := by
        have h1 : (m + 1) / 10 < m + 1 := Nat.div_lt_self (Nat.succ_pos m) (by omega)
        omega
      rw [ih ((m + 1) / 10) hle a]
      simp only [List.foldl_cons, List.foldl_nil, List.length_cons]
      have hmod : 10 * ((m + 1) / 10) + (m + 1) % 10 = m + 1 := Nat.div_add_mod (m + 1) 10
      have hp : a * 10 ^ ((natDigitsRev f ((m + 1) / 10)).length + 1) =
          10 * (a * 10 ^ (natDigitsRev f ((m + 1) / 10)).length) := by ring
      rw [hp]
      generalize a * 10 ^ (natDigitsRev f ((m + 1) / 10)).length = X
      omega

theorem foldl_digitChars (ds : List ℕ) (hds : ∀ d ∈ ds, d < 10) (a : ℕ) :
    List.foldl (fun acc c => 10 * acc + charVal c) a (ds.map digitChar) =
      List.foldl (fun acc d => 10 * acc + d) a ds := by
  induction ds generalizing a with
  | nil => rfl
  | cons d ds ih =>
    rw [List.map_cons, List.foldl_cons, List.foldl_cons,
      (digitChar_facts d (hds d (by simp))).1]
    exact ih (fun x hx => hds x (by simp [hx])) _

theorem natRepr_all_digits (n : ℕ) :
    ∀ c ∈ natRepr n, isDigitCh c = true ∧ Char.toLower c = c ∧ ¬ c = 'c' := by
  intro c hc
  rw [natRepr] at hc
  by_cases h : n = 0
  · rw [if_pos h] at hc
    simp only [List.mem_singleton] at hc
    subst hc
    exact ⟨by decide, by decide, by decide⟩
  · rw [if_neg h] at hc
    obtain ⟨d, hd, rfl⟩ := List.mem_map.mp hc
    have hd10 : d < 10 := natDigitsRev_lt n n d (List.mem_reverse.mp hd)
    obtain ⟨_, h1, h2, h3⟩ := digitChar_facts d hd10
    exact ⟨h1, h2, h3⟩

theorem natRepr_ne_nil (n : ℕ) : ¬ natRepr n = [] := by
  rw [natRepr]
  cases n with
  | zero => simp
  | succ m =>
    rw [if_neg (by omega)]
    intro he
    rw [List.map_eq_nil_iff, List.reverse_eq_nil_iff, natDigitsRev] at he
    cases he

theorem pyIntOf_natRepr (n : ℕ) : pyIntOf (natRepr n) = some n := by
  rw [pyIntOf, if_neg (natRepr_ne_nil n),
    if_pos (List.all_eq_true.mpr (fun c hc => (natRepr_all_digits n c hc).1))]
  congr 1
  rw [natRepr]
  cases n with
  | zero =>
    rw [if_pos rfl]
    decide
  | succ m =>
    rw [if_neg (by omega)]
    rw [foldl_digitChars _ (fun d hd => natDigitsRev_lt (m + 1) (m + 1) d
      (List.mem_reverse.mp hd)) 0]
    rw [foldl_digits_value (m + 1) (m + 1) (le_refl _) 0]
    simp

theorem map_self_of_fixed (l : List Char) (f : Char → Char)
    (h : ∀ c ∈ l, f c = c) : l.map f = l := by
  induction l with
  | nil => rfl
  | cons c cs ih =>
    rw [List.map_cons, h c (List.mem_cons_self c cs),
      ih (fun x hx => h x (List.mem_cons_of_mem _ hx))]

theorem dropWhile_beq_of_not_mem (ch : Char) (l : List Char)
    (h : ∀ c ∈ l, ¬ c = ch) : l.dropWhile (fun c => c == ch) = l := by
  cases l with
  | nil => rfl
  | cons c cs =>
    rw [List.dropWhile_cons,
      if_neg (by simp only [beq_iff_eq]; exact h c (List.mem_cons_self c cs))]

theorem stripChar_label (n : ℕ) :
    stripChar 'c' (lowerL (competitorLabel n)) = natRepr n := by
  rw [competitorLabel, lowerL, List.map_cons,
    show Char.toLower 'C' = 'c' from by decide,
    map_self_of_fixed (natRepr n) Char.toLower
      (fun c hc => (natRepr_all_digits n c hc).2.1),
    stripChar, List.dropWhile_cons, if_pos (by simp),
    dropWhile_beq_of_not_mem 'c' (natRepr n)
      (fun c hc => (natRepr_all_digits n c hc).2.2),
    dropWhile_beq_of_not_mem 'c' (natRepr n).reverse
      (fun c hc => (natRepr_all_digits n c (List.mem_reverse.mp hc)).2.2)]
  exact List.reverse_reverse _

theorem competitorName_label (competitors : List String) (i : ℕ)
    (h1 : 1 ≤ i) (h2 : i ≤ competitors.length) :
    competitorName competitors (competitorLabel i) = competitors[i - 1]? := by
  simp only [competitorName, stripChar_label, pyIntOf_natRepr]
  unfold pyIndex
  rw [if_pos (by omega : (0 : ℤ) ≤ (i : ℤ) - 1)]
  congr 1
  omega

/-- C7: competitor ids are assigned from the single snapshot of the answer
set — the i-th section of the judge prompt is labelled `C{i}` and carries
the answer of the i-th entry — and the final display resolves the
well-formed id `C{i}` (1 ≤ i ≤ n) back to the model name of that same i-th
entry, so the name shown is exactly the model whose answer bore that label
in the judge prompt. -/
theorem competitor_labels_roundtrip (answers : List (String × String)) (i : ℕ)
    (h1 : 1 ≤ i) (h2 : i ≤ answers.length) :
    ∃ m t, answers[i - 1]? = some (m, t) ∧
      (together_sections answers)[i - 1]? = some (competitorLabel i, t) ∧
      competitorName (competitorsOf answers) (competitorLabel i) = some m := by
  have hlt : i - 1 < answers.length := by omega
  refine ⟨answers[i - 1].1, answers[i - 1].2, ?_, ?_, ?_⟩
  · rw [List.getElem?_eq_getElem hlt]
  · rw [together_sections, answersListOf, List.getElem?_map, List.getElem?_enum,
      List.getElem?_map, List.getElem?_eq_getElem hlt]
    simp only [Option.map_some']
    have hi : i - 1 + 1 = i := by omega
    rw [hi]
  · rw [competitorsOf, competitorName_label _ i h1 (by simpa using h2),
      List.getElem?_map, List.getElem?_eq_getElem hlt]
    rfl

/-- Witness for C7 at a two-answer round and the id C2. -/
theorem competitor_labels_roundtrip_witness :
    ∃ m t, ([("modelA", "ansA"), ("modelB", "ansB")] :
        List (String × String))[2 - 1]? = some (m, t) ∧
      (together_sections [("modelA", "ansA"), ("modelB", "ansB")])[2 - 1]? =
        some (competitorLabel 2, t) ∧
      competitorName (competitorsOf [("modelA", "ansA"), ("modelB", "ansB")])
        (competitorLabel 2) = some m :=
  competitor_labels_roundtrip [("modelA", "ansA"), ("modelB", "ansB")] 2
    (by decide) (by decide)

/-- C10: the `"ollama"` client is registered by `setup_environment` whenever
its constructor succeeds, regardless of which credentials are present —
unlike the five credential-gated providers — so the registry is then
non-empty and `main`'s "No clients were successfully initialized" branch is
not taken. -/
theorem setup_environment_registers_ollama_unconditionally
    (env : EnvKeys) (ctorOk : String → Bool) (h : ctorOk "ollama" = true) :
    "ollama" ∈ (setup_environment env ctorOk).map Prod.fst ∧
    noClientsFatal (setup_environment env ctorOk) = false ∧
    (env.bedrock = false → "bedrock" ∉ (setup_environment env ctorOk).map Prod.fst) ∧
    (env.anthropic = false → "anthropic" ∉ (setup_environment env ctorOk).map Prod.fst) ∧
    (env.openai = false → "openai" ∉ (setup_environment env ctorOk).map Prod.fst) ∧
    (env.google = false → "google" ∉ (setup_environment env ctorOk).map Prod.fst) ∧
    (env.xai = false → "xai" ∉ (setup_environment env ctorOk).map Prod.fst) := by
  unfold setup_environment noClientsFatal
  simp only [h, Bool.and_true]
  constructor
  · simp
  constructor
  · simp [List.isEmpty_iff]
  refine ⟨?_, ?_, ?_, ?_, ?_⟩ <;> intro hk <;> simp [hk]

/-- Witness for C10 at a concrete environment with no credentials at all. -/
theorem setup_environment_registers_ollama_unconditionally_witness :
    "ollama" ∈ (setup_environment ⟨false, false, false, false, false⟩
      (fun _ => true)).map Prod.fst ∧
    noClientsFatal (setup_environment ⟨false, false, false, false, false⟩
      (fun _ => true)) = false :=
  ⟨(setup_environment_registers_ollama_unconditionally _ _ rfl).1,
   (setup_environment_registers_ollama_unconditionally _ _ rfl).2.1⟩
